import Mathlib

/-!
Verification of the ctai front-end's procurement session state container
(`src/frontend/src/context/ProcurementContext.jsx`) and its collaborators
(route guard, login page navigation, dashboard chat classification, budget
formatting), against a shallow embedding of the JavaScript source.

JSON values, `JSON.stringify` and `JSON.parse` are modelled executably:
a printer and a recursive-descent parser over character lists, with a
proved print/parse round-trip, so that the durable-storage (localStorage)
behaviour of the provider can be stated at the level of stored strings.
-/

namespace Ctai

/-- JSON values as produced by `JSON.parse` / consumed by `JSON.stringify`.
Numbers are modelled as integers (all numeric fields the app stores are
integral rupee amounts, ids, counts and percentages). -/
inductive Json where
  | null : Json
  | bool (b : Bool) : Json
  | num (n : Int) : Json
  | str (s : String) : Json
  | arr (elems : List Json) : Json
  | obj (fields : List (String × Json)) : Json

/-- Decimal digit characters for a natural number, big-endian, with explicit
fuel so that the definition is structurally recursive (fuel `n + 1` always
suffices since the value shrinks by a factor of 10 each step). -/
def natCharsF : Nat → Nat → List Char
  | 0, _ => []
  | f + 1, n =>
    if n < 10 then [Nat.digitChar n]
    else natCharsF f (n / 10) ++ [Nat.digitChar (n % 10)]

/-- Decimal digit characters of `n`, big-endian, e.g. `natChars 50 = ['5','0']`. -/
def natChars (n : Nat) : List Char := natCharsF (n + 1) n

/-- String-literal escaping performed by `JSON.stringify` (quote, backslash
and the common control characters). -/
def escapeChar (c : Char) : List Char :=
  if c = '"' then ['\\', '"']
  else if c = '\\' then ['\\', '\\']
  else if c = '\n' then ['\\', 'n']
  else if c = '\t' then ['\\', 't']
  else if c = '\r' then ['\\', 'r']
  else [c]

/-- The characters of a JSON string literal: quote, escaped body, quote. -/
def printStr (l : List Char) : List Char :=
  '"' :: (l.flatMap escapeChar ++ ['"'])

mutual
/-- The characters `JSON.stringify` emits for a value (no whitespace). -/
def printJson : Json → List Char
  | .null => "null".data
  | .bool true => "true".data
  | .bool false => "false".data
  | .num n => if n < 0 then '-' :: natChars n.natAbs else natChars n.toNat
  | .str s => printStr s.data
  | .arr xs => '[' :: (printElems xs ++ [']'])
  | .obj fs => '{' :: (printFields fs ++ ['}'])

/-- Comma-separated element list of a JSON array body. -/
def printElems : List Json → List Char
  | [] => []
  | [x] => printJson x
  | x :: y :: t => printJson x ++ ',' :: printElems (y :: t)

/-- Comma-separated `"key":value` member list of a JSON object body. -/
def printFields : List (String × Json) → List Char
  | [] => []
  | [(k, v)] => printStr k.data ++ ':' :: printJson v
  | (k, v) :: p :: t => printStr k.data ++ ':' :: printJson v ++ ',' :: printFields (p :: t)
end

/-- `JSON.stringify` on the modelled values. -/
def stringify (j : Json) : String := ⟨printJson j⟩

mutual
/-- Parser-fuel measure of a value: one unit per node and per list cell,
independent of the size of embedded numbers and strings. -/
def jdepth : Json → Nat
  | .arr xs => 1 + jdepthList xs
  | .obj fs => 1 + jdepthFields fs
  | _ => 1

/-- Fuel measure of an array body. -/
def jdepthList : List Json → Nat
  | [] => 1
  | x :: t => 1 + jdepth x + jdepthList t

/-- Fuel measure of an object body. -/
def jdepthFields : List (String × Json) → Nat
  | [] => 1
  | (_, v) :: t => 1 + jdepth v + jdepthFields t
end

/-- Inverse of the printer's escapes: the character named by `\x` for the
escape letters the printer emits (JSON also allows a few more; rejecting
them only narrows the set of accepted strings). -/
def unescape : Char → Option Char
  | '"' => some '"'
  | '\\' => some '\\'
  | 'n' => some '\n'
  | 't' => some '\t'
  | 'r' => some '\r'
  | _ => none

/-- Parse the body of a string literal (after the opening quote), returning
the decoded characters and the input after the closing quote. -/
def pStr : List Char → Option (List Char × List Char)
  | [] => none
  | c :: rest =>
    if c = '"' then some ([], rest)
    else if c = '\\' then
      match rest with
      | [] => none
      | e :: r2 => do
          let c2 ← unescape e
          let (s, r) ← pStr r2
          pure (c2 :: s, r)
    else do
      let (s, r) ← pStr rest
      pure (c :: s, r)

/-- Consume a maximal run of decimal digits, accumulating their value. -/
def pNum : Nat → List Char → Nat × List Char
  | acc, [] => (acc, [])
  | acc, c :: rest =>
    if c.isDigit then pNum (acc * 10 + (c.toNat - 48)) rest
    else (acc, c :: rest)

mutual
/-- Recursive-descent JSON value parser (no whitespace skipping — the
printer emits none), fuel-indexed for termination. -/
def pVal : Nat → List Char → Option (Json × List Char)
  | 0, _ => none
  | f + 1, cs =>
    match cs with
    | [] => none
    | c :: rest =>
      if c = 'n' then
        match rest with
        | 'u' :: 'l' :: 'l' :: r => some (.null, r)
        | _ => none
      else if c = 't' then
        match rest with
        | 'r' :: 'u' :: 'e' :: r => some (.bool true, r)
        | _ => none
      else if c = 'f' then
        match rest with
        | 'a' :: 'l' :: 's' :: 'e' :: r => some (.bool false, r)
        | _ => none
      else if c = '"' then
        (pStr rest).map (fun p => (.str ⟨p.1⟩, p.2))
      else if c = '[' then
        match rest with
        | ']' :: r => some (.arr [], r)
        | _ =>
          match pElems f rest with
          | some (xs, ']' :: r) => some (.arr xs, r)
          | _ => none
      else if c = '{' then
        match rest with
        | '}' :: r => some (.obj [], r)
        | _ =>
          match pFields f rest with
          | some (fs, '}' :: r) => some (.obj fs, r)
          | _ => none
      else if c = '-' then
        match rest with
        | [] => none
        | d :: r2 =>
          if d.isDigit then
            let p := pNum (d.toNat - 48) r2
            some (.num (-(p.1 : Int)), p.2)
          else none
      else if c.isDigit then
        let p := pNum (c.toNat - 48) rest
        some (.num (p.1 : Int), p.2)
      else none

/-- Parse one-or-more comma-separated values (an array body). -/
def pElems : Nat → List Char → Option (List Json × List Char)
  | 0, _ => none
  | f + 1, cs => do
      let (v, r) ← pVal f cs
      match r with
      | ',' :: r2 => do
          let (xs, r3) ← pElems f r2
          pure (v :: xs, r3)
      | _ => pure ([v], r)

/-- Parse one-or-more comma-separated `"key":value` members (an object body). -/
def pFields : Nat → List Char → Option (List (String × Json) × List Char)
  | 0, _ => none
  | f + 1, cs =>
    match cs with
    | '"' :: rest => do
        let (k, r1) ← pStr rest
        match r1 with
        | ':' :: r2 => do
            let (v, r3) ← pVal f r2
            match r3 with
            | ',' :: r4 => do
                let (fs, r5) ← pFields f r4
                pure ((⟨k⟩, v) :: fs, r5)
            | _ => pure ([(⟨k⟩, v)], r3)
        | _ => none
    | _ => none
end

/-- `JSON.parse` on the modelled values: parse a complete value with ample
fuel and reject trailing input; `none` models a thrown `SyntaxError`. -/
def parse (s : String) : Option Json :=
  match pVal (2 * s.data.length + 4) s.data with
  | some (j, []) => some j
  | _ => none

/-- Accumulator step of decimal-digit reading: shift and add the digit value. -/
def digStep (a : Nat) (c : Char) : Nat := a * 10 + (c.toNat - 48)

/-- The input does not begin with a decimal digit (so a maximal digit run
that ends here really ends here). -/
def headNotDigit : List Char → Bool
  | [] => true
  | c :: _ => !c.isDigit

theorem digitChar_isDigit {d : Nat} (h : d < 10) : (Nat.digitChar d).isDigit = true := by
  interval_cases d <;> decide

theorem digitChar_toNat {d : Nat} (h : d < 10) : (Nat.digitChar d).toNat - 48 = d := by
  interval_cases d <;> decide

theorem natCharsF_digits : ∀ (f n : Nat), ∀ c ∈ natCharsF f n, c.isDigit = true := by
  intro f
  induction f with
  | zero => intro n c hc; simp [natCharsF] at hc
  | succ f ih =>
    intro n c hc
    by_cases h : n < 10
    · simp [natCharsF, h] at hc
      subst hc
      exact digitChar_isDigit h
    · simp [natCharsF, h] at hc
      rcases hc with hc | hc
      · exact ih _ c hc
      · subst hc
        exact digitChar_isDigit (Nat.mod_lt _ (by norm_num))

theorem natCharsF_ne_nil (f n : Nat) : natCharsF (f + 1) n ≠ [] := by
  by_cases h : n < 10 <;> simp [natCharsF, h]

theorem natCharsF_foldl : ∀ (f n acc : Nat), n < f →
    (natCharsF f n).foldl digStep acc = acc * 10 ^ (natCharsF f n).length + n := by
  intro f
  induction f with
  | zero => intro n acc h; omega
  | succ f ih =>
    intro n acc h
    by_cases h10 : n < 10
    · simp [natCharsF, h10, digStep, digitChar_toNat h10]
    · have hdiv : n / 10 < f := by omega
      simp only [natCharsF, if_neg h10, List.foldl_append, List.length_append,
        List.foldl_cons, List.foldl_nil, List.length_cons, List.length_nil]
      rw [ih _ acc hdiv]
      simp only [digStep, digitChar_toNat (Nat.mod_lt _ (by norm_num) : n % 10 < 10)]
      have hmod : n / 10 * 10 + n % 10 = n := by omega
      calc (acc * 10 ^ (natCharsF f (n / 10)).length + n / 10) * 10 + n % 10
          = acc * (10 ^ (natCharsF f (n / 10)).length * 10) + (n / 10 * 10 + n % 10) := by
            ring
        _ = acc * 10 ^ ((natCharsF f (n / 10)).length + (0 + 1)) + n := by
            rw [hmod, pow_succ]

theorem natChars_digits (n : Nat) : ∀ c ∈ natChars n, c.isDigit = true :=
  natCharsF_digits (n + 1) n

theorem natChars_ne_nil (n : Nat) : natChars n ≠ [] := natCharsF_ne_nil n n

theorem natChars_foldl (n : Nat) : (natChars n).foldl digStep 0 = n := by
  have := natCharsF_foldl (n + 1) n 0 (Nat.lt_succ_self n)
  simpa [natChars] using this

theorem pNum_run : ∀ (ds : List Char) (acc : Nat) (rest : List Char),
    (∀ c ∈ ds, c.isDigit = true) → headNotDigit rest = true →
    pNum acc (ds ++ rest) = (ds.foldl digStep acc, rest) := by
  intro ds
  induction ds with
  | nil =>
    intro acc rest _ hb
    cases rest with
    | nil => simp [pNum]
    | cons c r =>
      simp only [headNotDigit, Bool.not_eq_true'] at hb
      simp [pNum, hb]
  | cons d ds ih =>
    intro acc rest hd hb
    have hdig : d.isDigit = true := hd d (by simp)
    have step : pNum acc (d :: (ds ++ rest)) = pNum (acc * 10 + (d.toNat - 48)) (ds ++ rest) := by
      simp [pNum, hdig]
    rw [List.cons_append, step, ih _ rest (fun c hc => hd c (by simp [hc])) hb]
    simp [digStep]

theorem isDigit_ne {c x : Char} (h : c.isDigit = true) (hx : x.isDigit = false) : c ≠ x := by
  intro he; subst he; rw [h] at hx; exact Bool.noConfusion hx

theorem pStr_quote (rest : List Char) : pStr ('"' :: rest) = some ([], rest) := by
  rw [pStr.eq_def]; simp

theorem pStr_esc (e : Char) (r2 : List Char) (c2 : Char) (hu : unescape e = some c2)
    (l r : List Char) (hp : pStr r2 = some (l, r)) :
    pStr ('\\' :: e :: r2) = some (c2 :: l, r) := by
  rw [pStr.eq_def]; simp [hu, hp]

theorem pStr_plain (c : Char) (rest : List Char) (h1 : ¬ c = '"') (h2 : ¬ c = '\\')
    (l r : List Char) (hp : pStr rest = some (l, r)) :
    pStr (c :: rest) = some (c :: l, r) := by
  rw [pStr.eq_def]; simp [h1, h2, hp]

theorem pStr_escape : ∀ (l rest : List Char),
    pStr (l.flatMap escapeChar ++ ('"' :: rest)) = some (l, rest) := by
  intro l
  induction l with
  | nil => intro rest; simpa using pStr_quote rest
  | cons c l ih =>
    intro rest
    have hbody : (c :: l).flatMap escapeChar ++ ('"' :: rest) =
        escapeChar c ++ (l.flatMap escapeChar ++ ('"' :: rest)) := by
      simp
    rw [hbody]
    by_cases h1 : c = '"'
    · subst h1
      exact pStr_esc _ _ _ (by rfl) _ _ (ih rest)
    · by_cases h2 : c = '\\'
      · subst h2
        exact pStr_esc _ _ _ (by rfl) _ _ (ih rest)
      · by_cases h3 : c = '\n'
        · subst h3
          exact pStr_esc _ _ _ (by rfl) _ _ (ih rest)
        · by_cases h4 : c = '\t'
          · subst h4
            exact pStr_esc _ _ _ (by rfl) _ _ (ih rest)
          · by_cases h5 : c = '\r'
            · subst h5
              exact pStr_esc _ _ _ (by rfl) _ _ (ih rest)
            · have he : escapeChar c = [c] := by
                simp [escapeChar, h1, h2, h3, h4, h5]
              rw [he]
              exact pStr_plain c _ h1 h2 _ _ (ih rest)

theorem jdepth_pos (j : Json) : 1 ≤ jdepth j := by
  cases j <;> simp [jdepth] <;> omega

theorem jdepthList_pos (xs : List Json) : 1 ≤ jdepthList xs := by
  cases xs <;> simp [jdepthList] <;> omega

theorem jdepthFields_pos (fs : List (String × Json)) : 1 ≤ jdepthFields fs := by
  cases fs with
  | nil => simp [jdepthFields]
  | cons p t => cases p; simp [jdepthFields]; omega

/-- Every printed value begins with a character, and that character is not a
closing bracket (so array/object bodies are never mistaken for empty). -/
theorem printJson_head (j : Json) :
    ∃ c t, printJson j = c :: t ∧ ¬ c = ']' ∧ ¬ c = '}' := by
  cases j with
  | null => exact ⟨'n', _, rfl, by decide, by decide⟩
  | bool b =>
    cases b with
    | false => exact ⟨'f', _, rfl, by decide, by decide⟩
    | true => exact ⟨'t', _, rfl, by decide, by decide⟩
  | num n =>
    by_cases h : n < 0
    · exact ⟨'-', natChars n.natAbs, by simp [printJson, h], by decide, by decide⟩
    · obtain ⟨c, t, hct⟩ := List.exists_cons_of_ne_nil (natChars_ne_nil n.toNat)
      refine ⟨c, t, by simp [printJson, h, hct], ?_, ?_⟩
      · exact isDigit_ne (natChars_digits n.toNat c (by simp [hct])) (by decide)
      · exact isDigit_ne (natChars_digits n.toNat c (by simp [hct])) (by decide)
  | str s => exact ⟨'"', _, rfl, by decide, by decide⟩
  | arr xs => exact ⟨'[', _, rfl, by decide, by decide⟩
  | obj fs => exact ⟨'{', _, rfl, by decide, by decide⟩

theorem pVal_str (f : Nat) (rest : List Char) :
    pVal (f + 1) ('"' :: rest) = (pStr rest).map (fun p => (.str ⟨p.1⟩, p.2)) := rfl

theorem pVal_digit (f : Nat) (c : Char) (rest : List Char) (h : c.isDigit = true) :
    pVal (f + 1) (c :: rest) =
      some (.num ((pNum (c.toNat - 48) rest).1 : Int), (pNum (c.toNat - 48) rest).2) := by
  have h1 := isDigit_ne h (x := 'n') (by decide)
  have h2 := isDigit_ne h (x := 't') (by decide)
  have h3 := isDigit_ne h (x := 'f') (by decide)
  have h4 := isDigit_ne h (x := '"') (by decide)
  have h5 := isDigit_ne h (x := '[') (by decide)
  have h6 := isDigit_ne h (x := '{') (by decide)
  have h7 := isDigit_ne h (x := '-') (by decide)
  simp [pVal, h, h1, h2, h3, h4, h5, h6, h7]

theorem pVal_neg (f : Nat) (d : Char) (r2 : List Char) (hd : d.isDigit = true) :
    pVal (f + 1) ('-' :: d :: r2) =
      some (.num (-((pNum (d.toNat - 48) r2).1 : Int)), (pNum (d.toNat - 48) r2).2) := by
  simp [pVal, hd]

theorem pVal_nil (f : Nat) : pVal f [] = none := by
  cases f <;> simp [pVal]

theorem pElems_nil (f : Nat) : pElems f [] = none := by
  cases f <;> simp [pElems, pVal_nil]

theorem pFields_nil (f : Nat) : pFields f [] = none := by
  cases f <;> simp [pFields]

theorem pVal_arr (f : Nat) (cs rest' : List Char) (xs : List Json)
    (hne : ∀ r, cs ≠ ']' :: r) (hp : pElems f cs = some (xs, ']' :: rest')) :
    pVal (f + 1) ('[' :: cs) = some (.arr xs, rest') := by
  cases cs with
  | nil => simp [pElems_nil] at hp
  | cons c cs' =>
    have hc : ¬ c = ']' := fun he => hne cs' (by rw [he])
    simp [pVal, hc, hp]

theorem pVal_obj (f : Nat) (cs rest' : List Char) (fs : List (String × Json))
    (hne : ∀ r, cs ≠ '}' :: r) (hp : pFields f cs = some (fs, '}' :: rest')) :
    pVal (f + 1) ('{' :: cs) = some (.obj fs, rest') := by
  cases cs with
  | nil => simp [pFields_nil] at hp
  | cons c cs' =>
    have hc : ¬ c = '}' := fun he => hne cs' (by rw [he])
    simp [pVal, hc, hp]

theorem pElems_single (f : Nat) (cs : List Char) (v : Json) (rest : List Char)
    (hv : pVal f cs = some (v, ']' :: rest)) :
    pElems (f + 1) cs = some ([v], ']' :: rest) := by
  simp [pElems, hv]

theorem pElems_cons (f : Nat) (cs : List Char) (v : Json) (r2 : List Char)
    (xs : List Json) (r3 : List Char) (hv : pVal f cs = some (v, ',' :: r2))
    (he : pElems f r2 = some (xs, r3)) :
    pElems (f + 1) cs = some (v :: xs, r3) := by
  simp [pElems, hv, he]

theorem pFields_single (f : Nat) (rest : List Char) (k : List Char) (r2 : List Char)
    (v : Json) (rest' : List Char) (hk : pStr rest = some (k, ':' :: r2))
    (hv : pVal f r2 = some (v, '}' :: rest')) :
    pFields (f + 1) ('"' :: rest) = some ([(⟨k⟩, v)], '}' :: rest') := by
  simp [pFields, hk, hv]

theorem pFields_cons (f : Nat) (rest : List Char) (k : List Char) (r2 : List Char)
    (v : Json) (r4 : List Char) (fs : List (String × Json)) (r5 : List Char)
    (hk : pStr rest = some (k, ':' :: r2)) (hv : pVal f r2 = some (v, ',' :: r4))
    (hf : pFields f r4 = some (fs, r5)) :
    pFields (f + 1) ('"' :: rest) = some ((⟨k⟩, v) :: fs, r5) := by
  simp [pFields, hk, hv, hf]

theorem hnd_cons (c : Char) (r : List Char) (h : c.isDigit = false) :
    headNotDigit (c :: r) = true := by
  simp [headNotDigit, h]

theorem printElems_head (x : Json) (t : List Json) :
    ∃ X, printElems (x :: t) = printJson x ++ X := by
  cases t with
  | nil => exact ⟨[], by simp [printElems]⟩
  | cons y t' => exact ⟨',' :: printElems (y :: t'), by simp [printElems]⟩

/-- Round-trip: with enough fuel, the parser reads back exactly what the
printer emitted, leaving any non-digit-leading continuation untouched. -/
theorem roundtrip_aux : ∀ f : Nat,
    (∀ j rest, jdepth j ≤ f → headNotDigit rest = true →
      pVal f (printJson j ++ rest) = some (j, rest)) ∧
    (∀ xs rest, xs ≠ [] → jdepthList xs ≤ f →
      pElems f (printElems xs ++ (']' :: rest)) = some (xs, ']' :: rest)) ∧
    (∀ fs rest, fs ≠ [] → jdepthFields fs ≤ f →
      pFields f (printFields fs ++ ('}' :: rest)) = some (fs, '}' :: rest)) := by
  intro f
  induction f with
  | zero =>
    refine ⟨?_, ?_, ?_⟩
    · intro j rest hd _
      have := jdepth_pos j
      omega
    · intro xs rest _ hd
      have := jdepthList_pos xs
      omega
    · intro fs rest _ hd
      have := jdepthFields_pos fs
      omega
  | succ f ih =>
    obtain ⟨ihV, ihE, ihF⟩ := ih
    refine ⟨?_, ?_, ?_⟩
    · intro j rest hd hb
      cases j with
      | null => rfl
      | bool b => cases b <;> rfl
      | num n =>
        by_cases hneg : n < 0
        · obtain ⟨d, t, hdt⟩ := List.exists_cons_of_ne_nil (natChars_ne_nil n.natAbs)
          have hdig : d.isDigit = true :=
            natChars_digits n.natAbs d (by rw [hdt]; exact List.mem_cons_self d t)
          have hall : ∀ c ∈ t, c.isDigit = true := fun c hc =>
            natChars_digits n.natAbs c (by rw [hdt]; exact List.mem_cons_of_mem d hc)
          have hprint : printJson (.num n) ++ rest = '-' :: d :: (t ++ rest) := by
            simp [printJson, hneg, hdt]
          rw [hprint, pVal_neg f d (t ++ rest) hdig, pNum_run t _ rest hall hb]
          have hval : t.foldl digStep (d.toNat - 48) = n.natAbs := by
            have h0 := natChars_foldl n.natAbs
            rw [hdt] at h0
            simpa [digStep] using h0
          rw [hval]
          have hn : -((n.natAbs : Nat) : Int) = n := by omega
          rw [hn]
        · obtain ⟨d, t, hdt⟩ := List.exists_cons_of_ne_nil (natChars_ne_nil n.toNat)
          have hdig : d.isDigit = true :=
            natChars_digits n.toNat d (by rw [hdt]; exact List.mem_cons_self d t)
          have hall : ∀ c ∈ t, c.isDigit = true := fun c hc =>
            natChars_digits n.toNat c (by rw [hdt]; exact List.mem_cons_of_mem d hc)
          have hprint : printJson (.num n) ++ rest = d :: (t ++ rest) := by
            simp [printJson, hneg, hdt]
          rw [hprint, pVal_digit f d (t ++ rest) hdig, pNum_run t _ rest hall hb]
          have hval : t.foldl digStep (d.toNat - 48) = n.toNat := by
            have h0 := natChars_foldl n.toNat
            rw [hdt] at h0
            simpa [digStep] using h0
          rw [hval]
          have hn : ((n.toNat : Nat) : Int) = n := by omega
          rw [hn]
      | str s =>
        obtain ⟨l⟩ := s
        have hprint : printJson (.str ⟨l⟩) ++ rest =
            '"' :: (l.flatMap escapeChar ++ ('"' :: rest)) := by
          simp [printJson, printStr]
        rw [hprint, pVal_str, pStr_escape]
        rfl
      | arr xs =>
        cases xs with
        | nil => rfl
        | cons x t =>
          have hd' : jdepthList (x :: t) ≤ f := by
            simp only [jdepth] at hd
            omega
          have hprint : printJson (.arr (x :: t)) ++ rest =
              '[' :: (printElems (x :: t) ++ (']' :: rest)) := by
            simp [printJson]
          rw [hprint]
          apply pVal_arr
          · intro r heq
            obtain ⟨c, ct, hc, hcne, _⟩ := printJson_head x
            obtain ⟨X, hX⟩ := printElems_head x t
            rw [hX, hc] at heq
            simp only [List.cons_append, List.cons.injEq] at heq
            exact hcne heq.1
          · exact ihE (x :: t) rest (by simp) hd'
      | obj fs =>
        cases fs with
        | nil => rfl
        | cons p t =>
          obtain ⟨k, v⟩ := p
          have hd' : jdepthFields ((k, v) :: t) ≤ f := by
            simp only [jdepth] at hd
            omega
          have hprint : printJson (.obj ((k, v) :: t)) ++ rest =
              '{' :: (printFields ((k, v) :: t) ++ ('}' :: rest)) := by
            simp [printJson]
          rw [hprint]
          apply pVal_obj
          · intro r heq
            have hY : ∃ Y, printFields ((k, v) :: t) = '"' :: Y := by
              cases t with
              | nil =>
                exact ⟨k.data.flatMap escapeChar ++ ('"' :: (':' :: printJson v)),
                  by simp [printFields, printStr]⟩
              | cons q t' =>
                exact ⟨k.data.flatMap escapeChar ++
                  ('"' :: (':' :: (printJson v ++ (',' :: printFields (q :: t'))))),
                  by simp [printFields, printStr]⟩
            obtain ⟨Y, hYe⟩ := hY
            rw [hYe] at heq
            simp only [List.cons_append, List.cons.injEq] at heq
            exact absurd heq.1 (by decide)
          · exact ihF ((k, v) :: t) rest (by simp) hd'
    · intro xs rest hne hd
      cases xs with
      | nil => exact absurd rfl hne
      | cons x t =>
        cases t with
        | nil =>
          have hdx : jdepth x ≤ f := by
            simp only [jdepthList] at hd
            omega
          have hp : printElems [x] ++ (']' :: rest) = printJson x ++ (']' :: rest) := by
            simp [printElems]
          rw [hp]
          exact pElems_single f _ x rest (ihV x (']' :: rest) hdx (hnd_cons ']' rest (by decide)))
        | cons y t' =>
          have hdx : jdepth x ≤ f := by
            simp only [jdepthList] at hd
            omega
          have hdyt : jdepthList (y :: t') ≤ f := by
            simp only [jdepthList] at hd ⊢
            have h1 := jdepth_pos x
            omega
          have hp : printElems (x :: y :: t') ++ (']' :: rest) =
              printJson x ++ (',' :: (printElems (y :: t') ++ (']' :: rest))) := by
            simp [printElems]
          rw [hp]
          exact pElems_cons f _ x _ (y :: t') _
            (ihV x _ hdx (hnd_cons ',' _ (by decide)))
            (ihE (y :: t') rest (by simp) hdyt)
    · intro fs rest hne hd
      cases fs with
      | nil => exact absurd rfl hne
      | cons p t =>
        obtain ⟨k, v⟩ := p
        obtain ⟨kl⟩ := k
        cases t with
        | nil =>
          have hdv : jdepth v ≤ f := by
            simp only [jdepthFields] at hd
            omega
          have hp : printFields [(⟨kl⟩, v)] ++ ('}' :: rest) =
              '"' :: (kl.flatMap escapeChar ++
                ('"' :: (':' :: (printJson v ++ ('}' :: rest))))) := by
            simp [printFields, printStr]
          rw [hp]
          exact pFields_single f _ kl _ v rest
            (pStr_escape kl _)
            (ihV v _ hdv (hnd_cons '}' rest (by decide)))
        | cons q t' =>
          have hdv : jdepth v ≤ f := by
            simp only [jdepthFields] at hd
            omega
          have hdt : jdepthFields (q :: t') ≤ f := by
            simp only [jdepthFields] at hd ⊢
            have h1 := jdepth_pos v
            omega
          have hp : printFields ((⟨kl⟩, v) :: q :: t') ++ ('}' :: rest) =
              '"' :: (kl.flatMap escapeChar ++
                ('"' :: (':' :: (printJson v ++
                  (',' :: (printFields (q :: t') ++ ('}' :: rest))))))) := by
            simp [printFields, printStr]
          rw [hp]
          exact pFields_cons f _ kl _ v _ (q :: t') _
            (pStr_escape kl _)
            (ihV v _ hdv (hnd_cons ',' _ (by decide)))
            (ihF (q :: t') rest (by simp) hdt)

/-- The fuel measure is dominated by the printed length (each node and list
cell accounts for at most two characters of output plus a constant). -/
theorem jdepth_le_aux : ∀ n : Nat,
    (∀ j : Json, sizeOf j ≤ n → jdepth j ≤ 2 * (printJson j).length + 1) ∧
    (∀ xs : List Json, sizeOf xs ≤ n → jdepthList xs ≤ 2 * (printElems xs).length + 3) ∧
    (∀ fs : List (String × Json), sizeOf fs ≤ n →
      jdepthFields fs ≤ 2 * (printFields fs).length + 3) := by
  intro n
  induction n with
  | zero =>
    refine ⟨?_, ?_, ?_⟩
    · intro j h
      exfalso
      cases j <;> simp at h <;> omega
    · intro xs h
      exfalso
      cases xs <;> simp at h <;> omega
    · intro fs h
      exfalso
      cases fs <;> simp at h <;> omega
  | succ n ih =>
    obtain ⟨ihV, ihE, ihF⟩ := ih
    refine ⟨?_, ?_, ?_⟩
    · intro j h
      cases j with
      | null => simp [jdepth]
      | bool b => cases b <;> simp [jdepth]
      | num m => simp [jdepth]
      | str s => simp [jdepth]
      | arr xs =>
        have hx : sizeOf xs ≤ n := by
          simp only [Json.arr.sizeOf_spec] at h
          omega
        have := ihE xs hx
        simp only [jdepth, printJson, List.length_cons, List.length_append,
          List.length_singleton]
        omega
      | obj fs =>
        have hx : sizeOf fs ≤ n := by
          simp only [Json.obj.sizeOf_spec] at h
          omega
        have := ihF fs hx
        simp only [jdepth, printJson, List.length_cons, List.length_append,
          List.length_singleton]
        omega
    · intro xs h
      cases xs with
      | nil => simp [jdepthList, printElems]
      | cons x t =>
        have hx : sizeOf x ≤ n := by
          simp only [List.cons.sizeOf_spec] at h
          omega
        have ht : sizeOf t ≤ n := by
          simp only [List.cons.sizeOf_spec] at h
          omega
        have h1 := ihV x hx
        cases t with
        | nil =>
          simp only [jdepthList, printElems]
          omega
        | cons y t' =>
          have h2 := ihE (y :: t') ht
          simp only [jdepthList] at h2 ⊢
          simp only [printElems, List.length_append, List.length_cons]
          omega
    · intro fs h
      cases fs with
      | nil => simp [jdepthFields, printFields]
      | cons p t =>
        obtain ⟨k, v⟩ := p
        have hv : sizeOf v ≤ n := by
          simp only [List.cons.sizeOf_spec, Prod.mk.sizeOf_spec] at h
          omega
        have ht : sizeOf t ≤ n := by
          simp only [List.cons.sizeOf_spec] at h
          omega
        have h1 := ihV v hv
        cases t with
        | nil =>
          simp only [jdepthFields, printFields, List.length_append, List.length_cons]
          omega
        | cons q t' =>
          have h2 := ihF (q :: t') ht
          simp only [jdepthFields] at h2 ⊢
          simp only [printFields, List.length_append, List.length_cons]
          omega

theorem jdepth_le (j : Json) : jdepth j ≤ 2 * (printJson j).length + 1 :=
  (jdepth_le_aux (sizeOf j)).1 j le_rfl

/-- `JSON.parse ∘ JSON.stringify` is the identity on modelled JSON values. -/
theorem parse_stringify (j : Json) : parse (stringify j) = some j := by
  have hfuel : jdepth j ≤ 2 * (printJson j).length + 4 := by
    have := jdepth_le j
    omega
  have h := (roundtrip_aux (2 * (printJson j).length + 4)).1 j [] hfuel rfl
  rw [List.append_nil] at h
  simp only [parse, stringify]
  rw [h]

/-! ## JavaScript value helpers -/

/-- JavaScript truthiness of a JSON value (`null`, `false`, `0` and `""` are
falsy; arrays and objects are always truthy). -/
def truthy : Json → Bool
  | .null => false
  | .bool b => b
  | .num n => n != 0
  | .str s => s != ""
  | .arr _ => true
  | .obj _ => true

/-- Property access `o.k` on a parsed JSON value: the field's value, or
`none` for JavaScript `undefined` (missing field or non-object receiver). -/
def jsField (j : Json) (k : String) : Option Json :=
  match j with
  | .obj fs => (fs.find? (fun p => p.1 == k)).map Prod.snd
  | _ => none

/-- `localStorage.setItem(key, JSON.stringify(v))` for a possibly-`undefined`
`v`: `JSON.stringify(undefined)` is `undefined`, which `setItem` coerces to
the literal string `"undefined"`. -/
def stringifyJS : Option Json → String
  | some j => stringify j
  | none => "undefined"

/-- `s.toLowerCase()` (ASCII case mapping, which covers the keywords the
dashboard matches on). -/
def jsToLower (s : String) : String := ⟨s.data.map Char.toLower⟩

/-- Search loop for `String.prototype.includes`. -/
def includesAux (sub : List Char) : List Char → Bool
  | [] => sub.isEmpty
  | c :: t => sub.isPrefixOf (c :: t) || includesAux sub t

/-- `s.includes(sub)`: substring containment. -/
def jsIncludes (s sub : String) : Bool := includesAux sub.data s.data

/-- Whitespace stripped by `String.prototype.trim` (the characters occurring
in practice). -/
def isWS (c : Char) : Bool := c = ' ' || c = '\t' || c = '\n' || c = '\r'

/-- `s.trim()`. -/
def jsTrim (s : String) : String :=
  ⟨((s.data.dropWhile isWS).reverse.dropWhile isWS).reverse⟩

/-! ## The session state container (`ProcurementContext.jsx`) -/

/-- The two durable localStorage keys the provider reads and writes
(`'user'` and `'procurementData'`); `none` is an absent key. -/
structure Storage where
  user : Option String
  procurementData : Option String

/-- The provider's in-memory React state (`useState` slots, lines 8–18). -/
structure ProviderState where
  procurementData : Option Json
  isLoading : Bool
  error : Option String
  user : Option Json
  conversations : List Json
  currentConversationId : Option Json

/-- In-memory state, durable storage, and the current route (the target of
the most recent `navigate` call). -/
structure World where
  state : ProviderState
  storage : Storage
  route : String

/-- `JSON.parse(localStorage.getItem(key))`: an absent key is `null`, which
`JSON.parse` coerces to the text `"null"` and parses to the JSON null value;
a present key is parsed, `none` modelling the thrown `SyntaxError` on
malformed text. -/
def readKey : Option String → Option Json
  | none => some .null
  | some s => parse s

/-- `v || null` applied to a parse result. -/
def orNull (j : Json) : Option Json :=
  if truthy j then some j else none

/-- Provider construction (lines 8–18): both `useState` initializers run
`JSON.parse(localStorage.getItem(·)) || null` (`procurementData` first,
then `user`); a parse failure aborts construction (`none` = the exception
propagates). No backend is consulted: the result is a function of storage
alone. -/
def initProvider (st : Storage) : Option ProviderState := do
  let pd ← readKey st.procurementData
  let u ← readKey st.user
  pure { procurementData := orNull pd, isLoading := false, error := none,
         user := orNull u, conversations := [], currentConversationId := none }

/-- Outcome of `procurementService.analyzeProcurement(query)`: the parsed
response body on HTTP success, or a rejection (`thrown`) for both transport
failures and non-2xx statuses (axios rejects both); `msg` is `err.message`,
possibly empty. -/
inductive FetchResult where
  | ok (data : Json)
  | thrown (msg : String)

/-- `a || b` on strings (empty string is falsy). -/
def jsOrElse (m dflt : String) : String := if m = "" then dflt else m

/-- `runAnalysis` (lines 77–91): set `isLoading`, clear `error`, then on
success store the report in state and storage and navigate to `/budget`;
on a thrown error set `error` to `err.message || "Failed to analyze
project"`; in both cases the `finally` block resets `isLoading`. -/
def runAnalysis (outcome : FetchResult) (query : String) (w : World) : World :=
  let w1 : World := { w with state := { w.state with isLoading := true, error := none } }
  let w2 : World :=
    match outcome with
    | .ok data =>
      { w1 with
        state := { w1.state with procurementData := some data },
        storage := { w1.storage with procurementData := some (stringify data) },
        route := "/budget" }
    | .thrown msg =>
      { w1 with state :=
        { w1.state with error := some (jsOrElse msg "Failed to analyze project") } }
  { w2 with state := { w2.state with isLoading := false } }

/-- `logout` (lines 65–75): clear user and report from state and storage,
reset the conversation slots, navigate to the landing page. -/
def logout (w : World) : World :=
  { state := { w.state with
      user := none
      procurementData := none
      conversations := []
      currentConversationId := none }
    storage := { w.storage with
      user := none
      procurementData := none }
    route := "/" }

/-- Outcome of the `fetch('/login')` call: a response with its `ok` flag and
parsed JSON body, or a rejected promise (transport fault) whose message the
`catch` reads. -/
inductive LoginOutcome where
  | response (ok : Bool) (body : Json)
  | fault (msg : String)

/-- The plain object `login` resolves with: `{success, user?}` or
`{success, error?}`; absent fields are `none` (JavaScript `undefined`). -/
structure AuthResult where
  success : Bool
  user : Option Json := none
  error : Option Json := none

/-- `login` (lines 27–45): on an ok response store `data.user` in state and
storage and resolve `{success: true, user}`; on a non-ok response resolve
`{success: false, error: data.error}` touching nothing; a thrown transport
fault is caught and resolved as `{success: false, error: err.message}`. -/
def login (outcome : LoginOutcome) (w : World) : World × AuthResult :=
  match outcome with
  | .response ok body =>
    if ok then
      ({ w with
         state := { w.state with user := jsField body "user" },
         storage := { w.storage with user := some (stringifyJS (jsField body "user")) } },
       { success := true, user := jsField body "user" })
    else
      (w, { success := false, error := jsField body "error" })
  | .fault msg =>
    (w, { success := false, error := some (.str msg) })

/-! ## Route guard and login navigation (`App.jsx`, `Login.jsx`) -/

/-- What `ProtectedRoute` renders: a `<Navigate to="/login" state={{from:
location}}>` carrying the requested pathname, or its children. -/
inductive GuardResult where
  | redirect (target : String) (fromPathname : String)
  | render

/-- `ProtectedRoute`: children when a user is present, otherwise a redirect
to the login view that records the current location. -/
def protectedRoute (user : Option Json) (pathname : String) : GuardResult :=
  match user with
  | none => .redirect "/login" pathname
  | some _ => .render

/-- The navigation state the login page can find in its location:
`location.state?.from?.pathname` flattened to an optional pathname. -/
structure LoginLocState where
  fromPath : Option String

/-- `location.state?.from?.pathname || '/budget'` in `Login.handleSubmit`. -/
def loginTarget (locState : Option LoginLocState) : String :=
  match locState with
  | some st =>
    match st.fromPath with
    | some p => if p = "" then "/budget" else p
    | none => "/budget"
  | none => "/budget"

/-- `Login.handleSubmit` after `login` resolves: on failure show the error
and stay (`none`); on success navigate to the recorded origin, defaulting
to `/budget`. -/
def handleSubmit (result : AuthResult) (locState : Option LoginLocState) : Option String :=
  if result.success then some (loginTarget locState) else none

/-! ## Dashboard chat glue (`DashboardLayout.jsx`) -/

/-- The classification heuristic (lines 125–130): the lowercased text
contains one of four keywords, or is longer than 20 characters (JavaScript
`.length`; the texts involved are ASCII, where the two length notions
agree). -/
def isProcurementQuery (text : String) : Bool :=
  jsIncludes (jsToLower text) "concrete" || jsIncludes (jsToLower text) "steel" ||
  jsIncludes (jsToLower text) "budget" || jsIncludes (jsToLower text) "quote" ||
  decide (text.length > 20)

/-- What a call to `handleSendMessage` does with the typed text. -/
inductive ChatAction where
  | ignored       -- empty after trim: early return before anything happens
  | aborted       -- no conversation and creating one failed: early return
  | errorNote     -- a fetch in the try block threw: catch posts an error note
  | analysis (query : String)  -- procurement-like: `await runAnalysis(text)`
  | generic       -- otherwise: canned chat reply, no analysis

/-- `handleSendMessage`: `hasConv` is whether a conversation is already
current, `createOk`/`sendOk` whether the conversation-creation and
message-save fetches succeed; after those gates the heuristic decides
between triggering an analysis and a generic reply. -/
def handleSendMessage (hasConv createOk sendOk : Bool) (chatQuery : String) : ChatAction :=
  if jsTrim chatQuery = "" then .ignored
  else if !hasConv && !createOk then .aborted
  else if !sendOk then .errorNote
  else if isProcurementQuery chatQuery then .analysis chatQuery
  else .generic

/-- The spec's description of a procurement-like message, stated
independently of `handleSendMessage`. -/
def procurementLikeSpec (text : String) : Prop :=
  jsIncludes (jsToLower text) "concrete" = true ∨
  jsIncludes (jsToLower text) "steel" = true ∨
  jsIncludes (jsToLower text) "budget" = true ∨
  jsIncludes (jsToLower text) "quote" = true ∨
  text.length > 20

/-! ## Budget formatting (`components/BudgetBreakdown.jsx`) -/

/-- `(amount / d).toFixed(2)`: the two-decimal rendering of `amount / d`,
rounding to the nearest hundredth, upwards on ties (ECMA `toFixed` picks
the closest two-decimal string, the larger on ties; the binary double and
the rational value agree on the integral rupee amounts the view formats). -/
def toFixedTwo (amount d : Nat) : String :=
  let scaled := (200 * amount + d) / (2 * d)
  ⟨natChars (scaled / 100) ++ '.' ::
    (if scaled % 100 < 10 then '0' :: natChars (scaled % 100) else natChars (scaled % 100))⟩

/-- Grouping step of `toLocaleString('en-IN')`: after the last three digits,
commas every two digits (input little-endian). -/
def chunk2 : List Char → List Char
  | a :: b :: c :: t => a :: b :: ',' :: chunk2 (c :: t)
  | l => l

/-- `amount.toLocaleString('en-IN')` for a natural amount. -/
def toLocaleStringEnIN (n : Nat) : String :=
  let r := (natChars n).reverse
  ⟨(r.take 3 ++ (if r.length ≤ 3 then [] else ',' :: chunk2 (r.drop 3))).reverse⟩

/-- `formatCurrency` (lines 16–23): crores with two decimals at or above
one crore, lakhs with two decimals at or above one lakh, plain en-IN
grouping below. -/
def formatCurrency (amount : Nat) : String :=
  if amount ≥ 10000000 then "₹" ++ toFixedTwo amount 10000000 ++ " Cr"
  else if amount ≥ 100000 then "₹" ++ toFixedTwo amount 100000 ++ " L"
  else "₹" ++ toLocaleStringEnIN amount

/-! ## Claim theorems -/

/-- C1: for every query string and every backend outcome (success or
rejection — the latter covering backend-reported failures and transport
faults alike), a completed `runAnalysis` leaves `isLoading = false`; the
reset is the `finally` step of the definition, so it applies to every
completion. -/
theorem runAnalysis_resets_isLoading (outcome : FetchResult) (query : String) (w : World) :
    (runAnalysis outcome query w).state.isLoading = false := by
  cases outcome <;> rfl

/-- C2: if `runAnalysis` fails (the backend call rejects, which is how both
transport faults and backend-reported failures surface), the previous
report — whatever it was, including absent — is unchanged in memory and in
durable storage, and `error` is set to a non-empty message. -/
theorem runAnalysis_failure_preserves_report (msg query : String) (w : World) :
    (runAnalysis (.thrown msg) query w).state.procurementData = w.state.procurementData ∧
    (runAnalysis (.thrown msg) query w).storage.procurementData = w.storage.procurementData ∧
    ∃ e, (runAnalysis (.thrown msg) query w).state.error = some e ∧ e ≠ "" := by
  refine ⟨rfl, rfl, jsOrElse msg "Failed to analyze project", rfl, ?_⟩
  by_cases h : msg = "" <;> simp [jsOrElse, h]

/-- C3: if `runAnalysis` succeeds with report `r`, afterwards the in-memory
report is `r`, the durable-storage key holds the serialization of `r`, and
deserializing the stored value yields the very report held in memory
(store-then-reload round-trip). -/
theorem runAnalysis_success_roundtrip (r : Json) (query : String) (w : World) :
    (runAnalysis (.ok r) query w).state.procurementData = some r ∧
    (runAnalysis (.ok r) query w).storage.procurementData = some (stringify r) ∧
    parse (stringify r) = some r :=
  ⟨rfl, rfl, parse_stringify r⟩

/-- C4: `logout` clears the user, the report and the conversation state from
memory and removes both durable-storage keys, for every starting state; and
it is idempotent: a second `logout` changes nothing further. -/
theorem logout_clears_and_idempotent (w : World) :
    (logout w).state.user = none ∧
    (logout w).state.procurementData = none ∧
    (logout w).state.conversations = [] ∧
    (logout w).state.currentConversationId = none ∧
    (logout w).storage.user = none ∧
    (logout w).storage.procurementData = none ∧
    logout (logout w) = logout w :=
  ⟨rfl, rfl, rfl, rfl, rfl, rfl, rfl⟩

/-- C5: `login` never throws — each outcome resolves to a result object.
A non-success response carrying `{error: m}` resolves to
`{success: false, error: m}`; a thrown transport fault resolves to
`{success: false, error: message}`; in both failure cases the whole world
(in particular the stored user, in memory and storage) is untouched; only a
success response stores the returned identity and resolves
`{success: true, user}`. -/
theorem login_contract (m u : Json) (msg : String) (w : World) :
    login (.response false (.obj [("error", m)])) w =
      (w, { success := false, error := some m }) ∧
    login (.fault msg) w =
      (w, { success := false, error := some (.str msg) }) ∧
    login (.response true (.obj [("user", u)])) w =
      ({ w with
         state := { w.state with user := some u }
         storage := { w.storage with user := some (stringify u) } },
       { success := true, user := some u }) := by
  refine ⟨?_, rfl, ?_⟩ <;> simp [login, jsField, stringifyJS]

/-- C6: when both durable keys hold a persisted (truthy) user and report,
the provider initializes holding exactly that user and that report —
`initProvider` is a function of storage alone, so no network is involved —
and when the user key is absent, any successful initialization is anonymous
(`user = none`). -/
theorem init_restores_session (u r : Json) (hu : truthy u = true) (hr : truthy r = true) :
    initProvider { user := some (stringify u), procurementData := some (stringify r) } =
      some { procurementData := some r, isLoading := false, error := none,
             user := some u, conversations := [], currentConversationId := none } ∧
    (∀ st : Storage, st.user = none → ∀ s, initProvider st = some s → s.user = none) := by
  constructor
  · simp [initProvider, readKey, parse_stringify, orNull, hu, hr]
  · intro st h1 s hs
    have hdef : initProvider st = (readKey st.procurementData).bind fun pd =>
        (readKey st.user).bind fun uu =>
        some { procurementData := orNull pd, isLoading := false, error := none,
               user := orNull uu, conversations := [], currentConversationId := none } := rfl
    rw [hdef, h1] at hs
    cases hpd : readKey st.procurementData with
    | none => rw [hpd] at hs; simp at hs
    | some pd =>
      rw [hpd] at hs
      simp only [Option.some_bind, readKey, Option.some.injEq] at hs
      rw [← hs]
      rfl

/-- Witness for C6 at a concrete persisted user and report. -/
theorem init_restores_session_witness :
    truthy (.obj [("name", .str "a")]) = true ∧
    truthy (.obj [("total_cost", .num 500000000)]) = true ∧
    initProvider
      { user := some (stringify (.obj [("name", .str "a")]))
        procurementData := some (stringify (.obj [("total_cost", .num 500000000)])) } =
      some { procurementData := some (.obj [("total_cost", .num 500000000)])
             isLoading := false
             error := none
             user := some (.obj [("name", .str "a")])
             conversations := []
             currentConversationId := none } :=
  ⟨rfl, rfl, (init_restores_session (.obj [("name", .str "a")])
    (.obj [("total_cost", .num 500000000)]) rfl rfl).1⟩

/-- C7: a protected view entered with no user redirects to the login view
carrying the requested pathname; after a later successful login the user is
navigated to exactly that pathname, and to the default `/budget` only when
no origin was supplied; with a user present the guard renders the view. -/
theorem guard_preserves_destination (u : Json) (p : String) (hp : p ≠ "") :
    protectedRoute none p = .redirect "/login" p ∧
    (∀ res : AuthResult, res.success = true →
      handleSubmit res (some { fromPath := some p }) = some p) ∧
    (∀ res : AuthResult, res.success = true →
      handleSubmit res none = some "/budget") ∧
    protectedRoute (some u) p = .render := by
  refine ⟨rfl, ?_, ?_, rfl⟩ <;> intro res hres <;>
    simp [handleSubmit, hres, loginTarget, hp]

/-- Witness for C7 at a concrete origin and user. -/
theorem guard_preserves_destination_witness :
    ("/materials" : String) ≠ "" ∧
    protectedRoute none "/materials" = .redirect "/login" "/materials" ∧
    handleSubmit { success := true } (some { fromPath := some "/materials" }) =
      some "/materials" := by
  have h := guard_preserves_destination (.obj []) "/materials" (by decide)
  exact ⟨by decide, h.1, h.2.1 { success := true } rfl⟩

/-- C8: at or above one crore the total-cost formatter renders the amount
divided by 10,000,000 with exactly two decimals between the rupee sign and
the `Cr` suffix; in particular 500000000 renders as `₹50.00 Cr`. -/
theorem formatCurrency_crores (amount : Nat) (h : 10000000 ≤ amount) :
    formatCurrency amount = "₹" ++ toFixedTwo amount 10000000 ++ " Cr" ∧
    formatCurrency 500000000 = "₹50.00 Cr" := by
  constructor
  · simp [formatCurrency, h]
  · rfl

/-- Witness for C8 at the spec's own scenario amount. -/
theorem formatCurrency_crores_witness :
    10000000 ≤ 500000000 ∧ formatCurrency 500000000 = "₹50.00 Cr" :=
  ⟨by norm_num, (formatCurrency_crores 500000000 (by norm_num)).2⟩

/-- C9: once past the early-return gates (non-empty trimmed text, a usable
conversation, successful message save), the chat handler triggers an
analysis on the text exactly when the lowercased text contains `concrete`,
`steel`, `budget` or `quote`, or exceeds 20 characters — and otherwise
produces the generic reply, never an analysis. -/
theorem chat_classification (text : String) (hasConv createOk sendOk : Bool)
    (ht : jsTrim text ≠ "") (hc : hasConv = true ∨ createOk = true) (hs : sendOk = true) :
    (handleSendMessage hasConv createOk sendOk text = .analysis text ↔
      procurementLikeSpec text) ∧
    (handleSendMessage hasConv createOk sendOk text = .generic ↔
      ¬ procurementLikeSpec text) := by
  subst hs
  have hgate : (!hasConv && !createOk) = false := by
    rcases hc with h | h <;> simp [h]
  by_cases hq : isProcurementQuery text = true
  · have hspec : procurementLikeSpec text := by
      simp only [isProcurementQuery, Bool.or_eq_true, decide_eq_true_eq] at hq
      unfold procurementLikeSpec
      tauto
    simp [handleSendMessage, ht, hgate, hq, hspec]
  · have hspec : ¬ procurementLikeSpec text := by
      simp only [isProcurementQuery, Bool.or_eq_true, Bool.not_eq_true,
        decide_eq_true_eq, not_or, not_lt] at hq
      obtain ⟨⟨⟨⟨h1, h2⟩, h3⟩, h4⟩, h5⟩ := hq
      simp [procurementLikeSpec, h1, h2, h3, h4]
      omega
    simp [handleSendMessage, ht, hgate, hq, hspec]

/-- Witness for C9: a keyword message triggers the analysis. -/
theorem chat_classification_witness :
    handleSendMessage true true true "what is the budget" =
      .analysis "what is the budget" :=
  ((chat_classification "what is the budget" true true true (by decide)
    (Or.inl rfl) rfl).1).mpr (Or.inr (Or.inr (Or.inl (by decide))))

/-- C10 counterexample: provider construction is not total over storage
contents — with the `procurementData` key holding the string `"{"` (not
valid JSON), `JSON.parse` throws and construction fails, refuting the claim
that initialization completes for every stored string. -/
theorem init_throws_on_invalid_json :
    initProvider { user := none, procurementData := some "\x7b" } = none := rfl

/-- C10 as amended: over absent keys and stored strings in the image of
serialization (everything the application itself persists), construction is
total and yields the parsed object when truthy and `null` (`none`) when the
key is absent or its parsed value is falsy. -/
theorem init_total_on_valid (uo ro : Option Json) :
    initProvider { user := uo.map stringify, procurementData := ro.map stringify } =
      some { procurementData := ro.bind orNull, isLoading := false, error := none,
             user := uo.bind orNull, conversations := [], currentConversationId := none } := by
  cases uo <;> cases ro <;>
    simp [initProvider, readKey, parse_stringify, orNull, truthy]

end Ctai
